import Mathlib

/-!
Shallow embedding of the speaker-recognition core of `voice_recog.py`.

Python floats are modelled as rationals (the matching engine only compares,
subtracts and scales them); external library calls (scipy cosine distance,
scipy filtfilt, librosa stft/istft, the SpeechBrain embedding model and the
SQLite connection) are modelled as explicit parameters or as the surrounding
state, exactly at the boundary where the source calls them.  Raising an
exception is modelled with `Except.error`; a caught exception is a value the
embedded function inspects.
-/

namespace VoiceRecog

/-- A fingerprint / embedding vector: the float32 values stored in the
`embedding` BLOB, after the `np.frombuffer` decode in `identify_speaker`. -/
abbrev Fingerprint := List ℚ

/-- One row of the `speakers` table (`name TEXT PRIMARY KEY, embedding BLOB`). -/
structure SpeakerRow where
  name : String
  emb : Fingerprint
deriving DecidableEq, Repr

/-- The `status` field of the dictionaries returned by `identify_speaker`. -/
inductive Status where
  | granted
  | denied
  | error
deriving DecidableEq, Repr

/-- The dictionary returned by `identify_speaker`.  The `person` key is only
present in the granted dictionary and the `confidence` key only in the
granted and denied dictionaries; absence is modelled with `Option.none`.
`probabilities` keeps the insertion order of the Python dict; its values are
the raw percentages `(1 - score) * 100` (the source renders each one with
two decimal places and a percent sign when building the string). -/
structure MatchResult where
  status : Status
  message : String
  person : Option String
  confidence : Option ℚ
  probabilities : List (String × ℚ)
deriving DecidableEq, Repr

/-- Python dict assignment `m[k] = v`: overwrite in place when the key is
present, append otherwise. -/
def dictInsert (m : List (String × ℚ)) (k : String) (v : ℚ) :
    List (String × ℚ) :=
  if m.any (fun p => p.1 = k) then
    m.map (fun p => if p.1 = k then (k, v) else p)
  else
    m ++ [(k, v)]

/-- State of the scoring loop of `identify_speaker`: the tracked
`best_match`/`best_score` pair and the `all_scores` dict.  `best_score`
starts at `float("inf")` in the source, with `best_match = None`; the pair
is modelled as `Option`, since the first computed score always replaces the
infinite initial value. -/
structure ScanState where
  best : Option (String × ℚ)
  scores : List (String × ℚ)
deriving DecidableEq, Repr

/-- One iteration of the `for name, emb_blob in speakers` loop of
`identify_speaker` (lines 80-90): skip the row when the stored shape
differs from the query shape, otherwise record
`all_scores[name] = (1-score)*100` and update the best pair when
`score < best_score` (strict). -/
def scoreStep (cosine : Fingerprint → Fingerprint → ℚ)
    (input_embedding : Fingerprint) (st : ScanState) (row : SpeakerRow) :
    ScanState :=
  if row.emb.length = input_embedding.length then
    let score := cosine input_embedding row.emb
    let scores := dictInsert st.scores row.name ((1 - score) * 100)
    match st.best with
    | none => ⟨some (row.name, score), scores⟩
    | some (bn, bs) =>
        if score < bs then ⟨some (row.name, score), scores⟩
        else ⟨some (bn, bs), scores⟩
  else st

/-- The whole scoring loop of `identify_speaker`. -/
def scoreScan (cosine : Fingerprint → Fingerprint → ℚ)
    (input_embedding : Fingerprint) (speakers : List SpeakerRow) : ScanState :=
  speakers.foldl (scoreStep cosine input_embedding) ⟨none, []⟩

/-- Embedding of `identify_speaker` (lines 58-123).  `cosine` stands for
`scipy.spatial.distance.cosine`; `extract` is the outcome of
`extract_embedding(audio_file)` (`Except.error` when that call raises);
`speakers` is the result of `SELECT name, embedding FROM speakers`.  The
surrounding `try/except` turns any raised message `e` into the error
dictionary with message `"Error during identification: " ++ e` and an empty
probabilities dict. -/
def identify_speaker (cosine : Fingerprint → Fingerprint → ℚ)
    (extract : Except String Fingerprint) (speakers : List SpeakerRow) :
    MatchResult :=
  match extract with
  | Except.error e =>
      ⟨Status.error, "Error during identification: " ++ e, none, none, []⟩
  | Except.ok input_embedding =>
      if speakers.isEmpty then
        ⟨Status.error, "No registered speakers found.", none, none, []⟩
      else
        let st := scoreScan cosine input_embedding speakers
        match st.best with
        | none =>
            ⟨Status.error, "Could not compare voice with registered users.",
              none, none, []⟩
        | some (best_match, best_score) =>
            let confidence := (1 - best_score) * 100
            if best_score < 7/10 then
              ⟨Status.granted, "Welcome " ++ best_match, some best_match,
                some confidence, st.scores⟩
            else
              ⟨Status.denied, "ACCESS DENIED", none, some confidence,
                st.scores⟩

/-- Effect of `INSERT OR REPLACE INTO speakers (name, embedding) VALUES (?, ?)` on a
table whose primary key is `name` (lines 34-35, 50-51): any existing row
for `name` is replaced by the new row. -/
def insertOrReplace (db : List SpeakerRow) (name : String)
    (emb : Fingerprint) : List SpeakerRow :=
  db.filter (fun r => r.name ≠ name) ++ [⟨name, emb⟩]

/-- Embedding of `register_speaker` (lines 41-56).  `extract` is the outcome of
`extract_embedding(audio_file)`: `Except.error` when the call raises,
`Except.ok none` when it returns `None`, `Except.ok (some v)` otherwise;
`v.length = 0` models `embedding.size == 0`.  A raised exception is
re-raised wrapped as `"Error in register_speaker: " ++ e`
(`Except.error`); otherwise the function returns the updated table and the
message string it produced. -/
def register_speaker (name : String)
    (extract : Except String (Option Fingerprint)) (db : List SpeakerRow) :
    Except String (List SpeakerRow × String) :=
  match extract with
  | Except.error e => Except.error ("Error in register_speaker: " ++ e)
  | Except.ok embedding =>
      match embedding with
      | none =>
          Except.ok (db, "Failed to extract voice features for " ++ name ++
            ". Please try again.")
      | some v =>
          if v.length = 0 then
            Except.ok (db, "Failed to extract voice features for " ++ name ++
              ". Please try again.")
          else
            Except.ok (insertOrReplace db name v,
              "Speaker \x27" ++ name ++ "\x27 registered successfully.")

/-- The message of the `NameError` raised by any call to the undefined
`extract_embedding`. -/
def nameErrorMsg : String := "name \x27extract_embedding\x27 is not defined"

/-- In the source as given, `extract_embedding` is called at lines 44 and 61
but is defined nowhere in the file, so every call raises
`NameError: name \x27extract_embedding\x27 is not defined`.  (For the same
reason `remove_noise` is never invoked on any request: the only plausible
caller of the conditioning stage would be the missing `extract_embedding`,
and no line of the file calls `remove_noise`.) -/
def extract_embedding_asGiven : Except String (Option Fingerprint) :=
  Except.error nameErrorMsg

/-- Dot product of two float vectors, `np.dot`-style, over the model
rationals. -/
def dotQ (u v : List ℚ) : ℚ := (List.zipWith (fun a b => a * b) u v).sum

/-- Model of `scipy.spatial.distance.cosine`:
`1 - dot(u, v) / (norm(u) * norm(v))`, the distance the matching engine
feeds into the scoring loop.  Stated over the reals because of the square
roots in the norms. -/
noncomputable def cosineDist (u v : List ℚ) : ℝ :=
  1 - (dotQ u v : ℝ) / (Real.sqrt (dotQ u u : ℝ) * Real.sqrt (dotQ v v : ℝ))

/-! ### The conditioning pipeline `remove_noise` (lines 125-171)

`apply_highpass_filter` (scipy `butter` + `filtfilt`) and librosa
`stft`/`istft` are external library calls; they enter the model as oracle
parameters, applied exactly where the source applies them.  The arithmetic
the source itself performs on their outputs (the noise gate, the mean noise
spectrum, the `0.7` subtraction with the `0.01` floor, the broadcast across
time frames, and the final length correction) is embedded concretely. -/

/-- Oracles for the librosa short-time Fourier transform calls.
`pow x` is the power spectrogram `np.abs(librosa.stft(x))**2`, a matrix
whose rows are frequency bins and whose columns are time frames.
`istftWithPhase m y` is
`librosa.istft(m**(1/2) * np.exp(1j*np.angle(librosa.stft(y))))`: the
inverse transform of the square root of the floored power matrix `m`
combined with the phase of the STFT of `y`. -/
structure StftOracle where
  pow : List ℚ → List (List ℚ)
  istftWithPhase : List (List ℚ) → List ℚ → List ℚ

/-- The per-bin mean `np.mean(row)` over one frequency bin (axis=1 of the spectrogram). -/
def meanRow (xs : List ℚ) : ℚ := xs.sum / xs.length

/-- Noise gate (lines 143-145): zero every sample whose absolute amplitude
is below `0.01`. -/
def noise_gate (xs : List ℚ) : List ℚ :=
  xs.map (fun x => if |x| < 1/100 then 0 else x)

/-- Length correction (lines 164-167): truncate to `L` when at least `L`
samples long, otherwise zero-pad on the right up to `L`. -/
def fit_length (L : Nat) (xs : List ℚ) : List ℚ :=
  if xs.length ≥ L then xs.take L
  else xs ++ List.replicate (L - xs.length) 0

/-- The spectral subtraction with flooring (line 158):
`np.maximum(audio_spec - 0.7 * noise_spectrum.reshape(-1, 1),
0.01 * audio_spec)`.  The reshape broadcasts one noise value per frequency
bin across all time frames of that bin. -/
def spec_subtract (audio_spec : List (List ℚ)) (noise_spectrum : List ℚ) :
    List (List ℚ) :=
  List.zipWith
    (fun row noiseVal =>
      row.map (fun p => max (p - 7/10 * noiseVal) (1/100 * p)))
    audio_spec noise_spectrum

/-- Embedding of `remove_noise` (lines 137-171).  `filt` stands for
`apply_highpass_filter(audio, cutoff=100, fs=sr)`; `o` for the librosa STFT
calls.  Stage 3 runs only when `len(audio) > sr * 0.5`; its noise spectrum
comes from the first `int(sr * 0.5)` samples of the original (pre-filter,
pre-gate) waveform, and its output is corrected to the input length.
Otherwise the gated signal is returned as-is. -/
def remove_noise (o : StftOracle) (filt : List ℚ → List ℚ)
    (audio : List ℚ) (sr : ℚ) : List ℚ :=
  let audio_filtered := filt audio
  let audio_gated := noise_gate audio_filtered
  if (audio.length : ℚ) > sr * (1/2) then
    let noise_sample := audio.take (sr * (1/2)).floor.toNat
    let noise_spectrum := (o.pow noise_sample).map meanRow
    let audio_spec := o.pow audio_gated
    let audio_spec_sub := spec_subtract audio_spec noise_spectrum
    let audio_denoised := o.istftWithPhase audio_spec_sub audio_gated
    fit_length audio.length audio_denoised
  else
    audio_gated

/-! ### Concrete instances used to exercise the theorems -/

/-- A concrete stand-in distance oracle for exercising the engine: the
head of the stored vector is its distance. -/
def cosHead : Fingerprint → Fingerprint → ℚ := fun _ s => s.headD 0

/-- Two shape-compatible rows at distances `1/2` and `1` from `[0]`. -/
def wSpeakers : List SpeakerRow := [⟨"alice", [1/2]⟩, ⟨"bob", [1]⟩]

/-- Two rows tied at distance `1/2` from `[0]`. -/
def wTie : List SpeakerRow := [⟨"a", [1/2]⟩, ⟨"b", [1/2]⟩]

/-- One row whose fingerprint length differs from the query `[0]`. -/
def wMismatch : List SpeakerRow := [⟨"carol", [1, 2]⟩]

/-- A trivial STFT oracle instance. -/
def wOracle : StftOracle := ⟨fun _ => [], fun _ _ => []⟩

/-- A concrete store with two enrolled rows. -/
def wDb : List SpeakerRow := [⟨"alice", [9]⟩, ⟨"bob", [3]⟩]

/-! ### Helper lemmas about the scoring loop -/

/-- The update of the `best_match`/`best_score` pair performed at lines
88-90 for one scored candidate. -/
def bestStep (b : Option (String × ℚ)) (p : String × ℚ) :
    Option (String × ℚ) :=
  match b with
  | none => some p
  | some q => if p.2 < q.2 then some p else some q

/-- The `(name, distance)` pairs of the identities that survive the shape
filter, in iteration order. -/
def matchedPairs (cosine : Fingerprint → Fingerprint → ℚ)
    (input_embedding : Fingerprint) (speakers : List SpeakerRow) :
    List (String × ℚ) :=
  (speakers.filter (fun r => decide (r.emb.length = input_embedding.length))).map
    (fun r => (r.name, cosine input_embedding r.emb))

theorem scoreStep_best_of_match (c : Fingerprint → Fingerprint → ℚ)
    (q : Fingerprint) (st : ScanState) (r : SpeakerRow)
    (h : r.emb.length = q.length) :
    (scoreStep c q st r).best = bestStep st.best (r.name, c q r.emb) := by
  cases hb : st.best with
  | none => simp [scoreStep, h, bestStep, hb]
  | some p =>
      cases p with
      | mk bn bs =>
          simp only [scoreStep, h, if_pos, hb, bestStep]
          split <;> simp_all

theorem scoreStep_scores_of_match (c : Fingerprint → Fingerprint → ℚ)
    (q : Fingerprint) (st : ScanState) (r : SpeakerRow)
    (h : r.emb.length = q.length) :
    (scoreStep c q st r).scores
      = dictInsert st.scores r.name ((1 - c q r.emb) * 100) := by
  cases hb : st.best with
  | none => simp [scoreStep, h, hb]
  | some p =>
      cases p with
      | mk bn bs =>
          simp only [scoreStep, h, if_pos, hb]
          split <;> rfl

theorem scoreStep_of_no_match (c : Fingerprint → Fingerprint → ℚ)
    (q : Fingerprint) (st : ScanState) (r : SpeakerRow)
    (h : ¬ r.emb.length = q.length) :
    scoreStep c q st r = st := by
  simp [scoreStep, h]

/-- The best pair tracked by the scoring loop is the fold of `bestStep`
over the matched `(name, distance)` pairs. -/
theorem foldl_scoreStep_best (c : Fingerprint → Fingerprint → ℚ)
    (q : Fingerprint) :
    ∀ (speakers : List SpeakerRow) (st : ScanState),
    (List.foldl (scoreStep c q) st speakers).best
      = List.foldl bestStep st.best (matchedPairs c q speakers) := by
  intro speakers
  induction speakers with
  | nil => intro st; rfl
  | cons r rest ih =>
      intro st
      by_cases h : r.emb.length = q.length
      · have hpairs : matchedPairs c q (r :: rest)
            = (r.name, c q r.emb) :: matchedPairs c q rest := by
          simp [matchedPairs, List.filter_cons, h]
        rw [List.foldl_cons, ih, hpairs, List.foldl_cons,
          scoreStep_best_of_match c q st r h]
      · have hpairs : matchedPairs c q (r :: rest) = matchedPairs c q rest := by
          simp [matchedPairs, List.filter_cons, h]
        rw [List.foldl_cons, ih, hpairs, scoreStep_of_no_match c q st r h]

/-- Full characterisation of the `bestStep` fold started at `some b`:
either no pair beats `b` strictly and `b` survives, or the result is the
first pair attaining the minimum, every earlier pair being strictly
larger. -/
theorem bestFold_first :
    ∀ (pairs : List (String × ℚ)) (b : String × ℚ),
    (List.foldl bestStep (some b) pairs = some b ∧ ∀ p ∈ pairs, b.2 ≤ p.2)
    ∨ (∃ i, ∃ hi : i < pairs.length,
        List.foldl bestStep (some b) pairs = some (pairs.get ⟨i, hi⟩)
        ∧ (pairs.get ⟨i, hi⟩).2 < b.2
        ∧ (∀ j, ∀ hj : j < i,
            (pairs.get ⟨i, hi⟩).2 < (pairs.get ⟨j, Nat.lt_trans hj hi⟩).2)
        ∧ ∀ p ∈ pairs, (pairs.get ⟨i, hi⟩).2 ≤ p.2) := by
  intro pairs
  induction pairs with
  | nil => intro b; left; exact ⟨rfl, by intro p hp; cases hp⟩
  | cons p rest ih =>
      intro b
      by_cases hpb : p.2 < b.2
      · have hstep : List.foldl bestStep (some b) (p :: rest)
            = List.foldl bestStep (some p) rest := by
          simp [List.foldl_cons, bestStep, hpb]
        rcases ih p with ⟨hres, hmin⟩ | ⟨i, hi, hres, hlt, hfirst, hmin⟩
        · right
          refine ⟨0, Nat.succ_pos _, ?_, ?_, ?_, ?_⟩
          · rw [hstep, hres]; rfl
          · exact hpb
          · intro j hj; cases hj
          · intro x hx
            rcases List.mem_cons.mp hx with hx | hx
            · rw [hx]; exact le_refl p.2
            · exact hmin x hx
        · right
          refine ⟨i + 1, Nat.succ_lt_succ hi, ?_, ?_, ?_, ?_⟩
          · rw [hstep, hres]; rfl
          · exact lt_trans hlt hpb
          · intro j hj
            cases j with
            | zero => exact hlt
            | succ k =>
                have hk : k < i := Nat.lt_of_succ_lt_succ hj
                exact hfirst k hk
          · intro x hx
            rcases List.mem_cons.mp hx with hx | hx
            · rw [hx]; exact le_of_lt hlt
            · exact hmin x hx
      · have hstep : List.foldl bestStep (some b) (p :: rest)
            = List.foldl bestStep (some b) rest := by
          simp [List.foldl_cons, bestStep, hpb]
        rcases ih b with ⟨hres, hmin⟩ | ⟨i, hi, hres, hlt, hfirst, hmin⟩
        · left
          refine ⟨by rw [hstep, hres], ?_⟩
          intro x hx
          rcases List.mem_cons.mp hx with hx | hx
          · rw [hx]; exact not_lt.mp hpb
          · exact hmin x hx
        · right
          refine ⟨i + 1, Nat.succ_lt_succ hi, ?_, ?_, ?_, ?_⟩
          · rw [hstep, hres]; rfl
          · exact hlt
          · intro j hj
            cases j with
            | zero => exact lt_of_lt_of_le hlt (not_lt.mp hpb)
            | succ k =>
                have hk : k < i := Nat.lt_of_succ_lt_succ hj
                exact hfirst k hk
          · intro x hx
            rcases List.mem_cons.mp hx with hx | hx
            · rw [hx]; exact le_of_lt (lt_of_lt_of_le hlt (not_lt.mp hpb))
            · exact hmin x hx

/-- On a non-empty pair list, the `bestStep` fold started at `none` returns
the first pair attaining the minimum distance. -/
theorem bestFold_none_first (pairs : List (String × ℚ)) (hne : pairs ≠ []) :
    ∃ i, ∃ hi : i < pairs.length,
      List.foldl bestStep none pairs = some (pairs.get ⟨i, hi⟩)
      ∧ (∀ j, ∀ hj : j < i,
          (pairs.get ⟨i, hi⟩).2 < (pairs.get ⟨j, Nat.lt_trans hj hi⟩).2)
      ∧ ∀ p ∈ pairs, (pairs.get ⟨i, hi⟩).2 ≤ p.2 := by
  cases pairs with
  | nil => exact absurd rfl hne
  | cons p rest =>
      have hstep : List.foldl bestStep none (p :: rest)
          = List.foldl bestStep (some p) rest := by
        simp [List.foldl_cons, bestStep]
      rcases bestFold_first rest p with ⟨hres, hmin⟩ | ⟨i, hi, hres, hlt, hfirst, hmin⟩
      · refine ⟨0, Nat.succ_pos _, ?_, ?_, ?_⟩
        · rw [hstep, hres]; rfl
        · intro j hj; cases hj
        · intro x hx
          rcases List.mem_cons.mp hx with hx | hx
          · rw [hx]; exact le_refl p.2
          · exact hmin x hx
      · refine ⟨i + 1, Nat.succ_lt_succ hi, ?_, ?_, ?_⟩
        · rw [hstep, hres]; rfl
        · intro j hj
          cases j with
          | zero => exact hlt
          | succ k =>
              have hk : k < i := Nat.lt_of_succ_lt_succ hj
              exact hfirst k hk
        · intro x hx
          rcases List.mem_cons.mp hx with hx | hx
          · rw [hx]; exact le_of_lt hlt
          · exact hmin x hx

theorem dictInsert_of_not_mem (m : List (String × ℚ)) (k : String) (v : ℚ)
    (h : k ∉ m.map Prod.fst) : dictInsert m k v = m ++ [(k, v)] := by
  unfold dictInsert
  rw [if_neg]
  intro hc
  rcases List.any_eq_true.mp hc with ⟨p, hp, hpk⟩
  exact h (List.mem_map.mpr ⟨p, hp, by simpa using hpk⟩)

theorem dictInsert_mem (m : List (String × ℚ)) (k : String) (v : ℚ)
    (p : String × ℚ) (hp : p ∈ dictInsert m k v) : p ∈ m ∨ p = (k, v) := by
  unfold dictInsert at hp
  by_cases hany : m.any (fun p => p.1 = k) = true
  · rw [if_pos hany] at hp
    rcases List.mem_map.mp hp with ⟨x, hx, hxe⟩
    by_cases hxk : x.1 = k
    · rw [if_pos hxk] at hxe
      right; exact hxe.symm
    · rw [if_neg hxk] at hxe
      left; exact hxe ▸ hx
  · rw [if_neg hany] at hp
    rcases List.mem_append.mp hp with hp | hp
    · left; exact hp
    · right; exact List.mem_singleton.mp hp

/-- With pairwise-distinct speaker names (guaranteed by the `name TEXT
PRIMARY KEY` schema) and an accumulator whose keys avoid those names, the
scoring loop appends exactly one `(name, (1-distance)*100)` entry per
shape-matching row, in iteration order. -/
theorem foldl_scoreStep_scores (c : Fingerprint → Fingerprint → ℚ)
    (q : Fingerprint) :
    ∀ (speakers : List SpeakerRow) (st : ScanState),
    (speakers.map SpeakerRow.name).Nodup →
    (∀ r ∈ speakers, r.name ∉ st.scores.map Prod.fst) →
    (List.foldl (scoreStep c q) st speakers).scores
      = st.scores ++
        (speakers.filter (fun r => decide (r.emb.length = q.length))).map
          (fun r => (r.name, (1 - c q r.emb) * 100)) := by
  intro speakers
  induction speakers with
  | nil => intro st _ _; simp
  | cons r rest ih =>
      intro st hnd hfresh
      have hnd0 : r.name ∉ rest.map SpeakerRow.name ∧
          (rest.map SpeakerRow.name).Nodup := by
        rw [List.map_cons] at hnd
        exact List.nodup_cons.mp hnd
      by_cases h : r.emb.length = q.length
      · have hsc : (scoreStep c q st r).scores
            = st.scores ++ [(r.name, (1 - c q r.emb) * 100)] := by
          rw [scoreStep_scores_of_match c q st r h,
            dictInsert_of_not_mem _ _ _ (hfresh r (List.mem_cons_self r rest))]
        have hfresh' : ∀ x ∈ rest, x.name ∉ (scoreStep c q st r).scores.map Prod.fst := by
          intro x hx
          rw [hsc, List.map_append]
          intro hmem
          rcases List.mem_append.mp hmem with hmem | hmem
          · exact hfresh x (List.mem_cons_of_mem r hx) hmem
          · have hxr : x.name = r.name := by simpa using hmem
            exact hnd0.1 (List.mem_map.mpr ⟨x, hx, hxr⟩)
        rw [List.foldl_cons, ih (scoreStep c q st r) hnd0.2 hfresh', hsc,
          List.filter_cons_of_pos (by simpa using h), List.map_cons,
          List.append_assoc, List.singleton_append]
      · rw [List.foldl_cons, scoreStep_of_no_match c q st r h,
          ih st hnd0.2 (fun x hx => hfresh x (List.mem_cons_of_mem r hx)),
          List.filter_cons_of_neg (by simpa using h)]

/-- Every entry of the score dict produced by the loop is either inherited
from the accumulator or is the scored value of some shape-matching row. -/
theorem foldl_scoreStep_scores_mem (c : Fingerprint → Fingerprint → ℚ)
    (q : Fingerprint) :
    ∀ (speakers : List SpeakerRow) (st : ScanState),
    ∀ p ∈ (List.foldl (scoreStep c q) st speakers).scores,
      p ∈ st.scores ∨ ∃ r, r ∈ speakers ∧ r.emb.length = q.length
        ∧ p = (r.name, (1 - c q r.emb) * 100) := by
  intro speakers
  induction speakers with
  | nil => intro st p hp; left; exact hp
  | cons r rest ih =>
      intro st p hp
      rw [List.foldl_cons] at hp
      rcases ih (scoreStep c q st r) p hp with hmem | ⟨x, hx, hxlen, hxe⟩
      · by_cases h : r.emb.length = q.length
        · rw [scoreStep_scores_of_match c q st r h] at hmem
          rcases dictInsert_mem _ _ _ _ hmem with hmem | hmem
          · left; exact hmem
          · right
            exact ⟨r, List.mem_cons_self r rest, h, hmem⟩
        · rw [scoreStep_of_no_match c q st r h] at hmem
          left; exact hmem
      · right
        exact ⟨x, List.mem_cons_of_mem r hx, hxlen, hxe⟩

/-- The top-level `confidence` field equals `(1 - best_score) * 100` for
the tracked best pair, and is absent exactly when no best pair exists. -/
theorem identify_confidence_eq (c : Fingerprint → Fingerprint → ℚ)
    (q : Fingerprint) (speakers : List SpeakerRow) :
    (identify_speaker c (Except.ok q) speakers).confidence
      = ((scoreScan c q speakers).best).map (fun p => (1 - p.2) * 100) := by
  by_cases hemp : speakers.isEmpty
  · have hnil : speakers = [] := List.isEmpty_iff.mp hemp
    subst hnil
    rfl
  · cases hb : (scoreScan c q speakers).best with
    | none => simp [identify_speaker, hemp, hb]
    | some p =>
        cases p with
        | mk bn bs =>
            by_cases hbs : bs < 7/10 <;>
              simp [identify_speaker, hemp, hb, hbs]

/-- On a non-empty speaker list whose fingerprints are all shape-compatible
with the query, the loop tracks as best pair the first row attaining the
minimum cosine distance. -/
theorem scoreScan_best_spec (cosine : Fingerprint → Fingerprint → ℚ)
    (q : Fingerprint) (speakers : List SpeakerRow)
    (hne : speakers ≠ [])
    (hlen : ∀ r ∈ speakers, r.emb.length = q.length) :
    ∃ i, ∃ hi : i < speakers.length,
      (scoreScan cosine q speakers).best
        = some ((speakers.get ⟨i, hi⟩).name, cosine q (speakers.get ⟨i, hi⟩).emb)
      ∧ (∀ j, ∀ hj : j < i,
          cosine q (speakers.get ⟨i, hi⟩).emb
            < cosine q (speakers.get ⟨j, Nat.lt_trans hj hi⟩).emb)
      ∧ ∀ r ∈ speakers, cosine q (speakers.get ⟨i, hi⟩).emb ≤ cosine q r.emb := by
  have hpairs : matchedPairs cosine q speakers
      = speakers.map (fun r => (r.name, cosine q r.emb)) := by
    unfold matchedPairs
    rw [List.filter_eq_self.mpr]
    intro r hr
    simpa using hlen r hr
  have hbestf : (scoreScan cosine q speakers).best
      = List.foldl bestStep none
          (speakers.map (fun r => (r.name, cosine q r.emb))) := by
    unfold scoreScan
    rw [foldl_scoreStep_best, hpairs]
  have hnemap : speakers.map (fun r => (r.name, cosine q r.emb)) ≠ [] := by
    intro hc
    exact hne (List.map_eq_nil_iff.mp hc)
  obtain ⟨i, hi, hres, hfirst, hmin⟩ := bestFold_none_first _ hnemap
  have hi' : i < speakers.length := by simpa using hi
  have hget : ∀ j (hjm : j < (speakers.map
        (fun r => (r.name, cosine q r.emb))).length) (hj : j < speakers.length),
      (speakers.map (fun r => (r.name, cosine q r.emb))).get ⟨j, hjm⟩
        = ((speakers.get ⟨j, hj⟩).name, cosine q (speakers.get ⟨j, hj⟩).emb) := by
    intro j hjm hj
    simp [List.get_eq_getElem, List.getElem_map]
  refine ⟨i, hi', ?_, ?_, ?_⟩
  · rw [hbestf, hres, hget i hi hi']
  · intro j hj
    have h2 := hfirst j hj
    rw [hget i hi hi', hget j (Nat.lt_trans hj hi) (Nat.lt_trans hj hi')] at h2
    exact h2
  · intro r hr
    have h2 := hmin (r.name, cosine q r.emb)
      (List.mem_map.mpr ⟨r, hr, rfl⟩)
    rw [hget i hi hi'] at h2
    exact h2

/-- With pairwise-distinct names, the final `all_scores` dict is exactly
one `(name, (1 - distance) * 100)` entry per shape-matching row, in
iteration order. -/
theorem scoreScan_scores_spec (cosine : Fingerprint → Fingerprint → ℚ)
    (q : Fingerprint) (speakers : List SpeakerRow)
    (hnd : (speakers.map SpeakerRow.name).Nodup) :
    (scoreScan cosine q speakers).scores
      = (speakers.filter (fun r => decide (r.emb.length = q.length))).map
          (fun r => (r.name, (1 - cosine q r.emb) * 100)) := by
  unfold scoreScan
  rw [foldl_scoreStep_scores cosine q speakers ⟨none, []⟩ hnd
    (by intro r hr; simp)]
  simp

/-- C1: against a non-empty set of shape-compatible enrolled identities,
if the minimum cosine distance `bs` is strictly below `0.7` the verdict is
granted with the best candidate as `person` and message `"Welcome {name}"`;
if `bs` is at least `0.7` (including exactly `0.7`) the verdict is denied
with message `"ACCESS DENIED"`, no `person` field, and the full
per-identity score map is still returned in both cases. -/
theorem c1_threshold_decision (cosine : Fingerprint → Fingerprint → ℚ)
    (q : Fingerprint) (speakers : List SpeakerRow)
    (hne : speakers ≠ [])
    (hlen : ∀ r ∈ speakers, r.emb.length = q.length)
    (hnd : (speakers.map SpeakerRow.name).Nodup) :
    ∃ bn bs, (scoreScan cosine q speakers).best = some (bn, bs)
      ∧ bs ∈ speakers.map (fun r => cosine q r.emb)
      ∧ (∀ d ∈ speakers.map (fun r => cosine q r.emb), bs ≤ d)
      ∧ (bs < 7/10 →
          identify_speaker cosine (Except.ok q) speakers
            = ⟨Status.granted, "Welcome " ++ bn, some bn, some ((1 - bs) * 100),
                speakers.map (fun r => (r.name, (1 - cosine q r.emb) * 100))⟩)
      ∧ (7/10 ≤ bs →
          identify_speaker cosine (Except.ok q) speakers
            = ⟨Status.denied, "ACCESS DENIED", none, some ((1 - bs) * 100),
                speakers.map (fun r => (r.name, (1 - cosine q r.emb) * 100))⟩) := by
  obtain ⟨i, hi, hbest, _, hmin⟩ := scoreScan_best_spec cosine q speakers hne hlen
  have hempf : speakers.isEmpty = false := by
    cases speakers with
    | nil => exact absurd rfl hne
    | cons a l => rfl
  have hfl : speakers.filter (fun r => decide (r.emb.length = q.length))
      = speakers := by
    rw [List.filter_eq_self.mpr]
    intro r hr
    simpa using hlen r hr
  have hscores : (scoreScan cosine q speakers).scores
      = speakers.map (fun r => (r.name, (1 - cosine q r.emb) * 100)) := by
    rw [scoreScan_scores_spec cosine q speakers hnd, hfl]
  refine ⟨(speakers.get ⟨i, hi⟩).name, cosine q (speakers.get ⟨i, hi⟩).emb,
    hbest, List.mem_map.mpr ⟨speakers.get ⟨i, hi⟩, List.get_mem _ _ _, rfl⟩,
    ?_, ?_, ?_⟩
  · intro d hd
    obtain ⟨r, hr, hre⟩ := List.mem_map.mp hd
    exact hre ▸ hmin r hr
  · intro hlt
    have hid : identify_speaker cosine (Except.ok q) speakers
        = ⟨Status.granted, "Welcome " ++ (speakers.get ⟨i, hi⟩).name,
            some (speakers.get ⟨i, hi⟩).name,
            some ((1 - cosine q (speakers.get ⟨i, hi⟩).emb) * 100),
            (scoreScan cosine q speakers).scores⟩ := by
      have hlt2 : cosine q (speakers[i]).emb < 7/10 := by simpa using hlt
      simp [identify_speaker, hempf, hbest, hlt2]
    rw [hid, hscores]
  · intro hge
    have hid : identify_speaker cosine (Except.ok q) speakers
        = ⟨Status.denied, "ACCESS DENIED", none,
            some ((1 - cosine q (speakers.get ⟨i, hi⟩).emb) * 100),
            (scoreScan cosine q speakers).scores⟩ := by
      have hge2 : ¬ cosine q (speakers[i]).emb < 7/10 := by
        simpa using not_lt.mpr hge
      simp [identify_speaker, hempf, hbest, hge2]
    rw [hid, hscores]

/-- C3: on a non-empty set of shape-compatible enrolled identities, the
best candidate tracked by the matcher is the identity at minimum cosine
distance from the query, and under the strict less-than update an exact tie
is won by the first identity encountered in iteration order (every row
before the winner scores strictly worse). -/
theorem c3_first_minimum_wins (cosine : Fingerprint → Fingerprint → ℚ)
    (q : Fingerprint) (speakers : List SpeakerRow)
    (hne : speakers ≠ [])
    (hlen : ∀ r ∈ speakers, r.emb.length = q.length) :
    ∃ i, ∃ hi : i < speakers.length,
      (scoreScan cosine q speakers).best
        = some ((speakers.get ⟨i, hi⟩).name, cosine q (speakers.get ⟨i, hi⟩).emb)
      ∧ (∀ j, ∀ hj : j < i,
          cosine q (speakers.get ⟨i, hi⟩).emb
            < cosine q (speakers.get ⟨j, Nat.lt_trans hj hi⟩).emb)
      ∧ ∀ r ∈ speakers, cosine q (speakers.get ⟨i, hi⟩).emb ≤ cosine q r.emb :=
  scoreScan_best_spec cosine q speakers hne hlen

/-- The `probabilities` field of an identification result is either the
hard-coded empty dict of one of the error returns, or the final
`all_scores` dict. -/
theorem identify_probabilities_cases (cosine : Fingerprint → Fingerprint → ℚ)
    (q : Fingerprint) (speakers : List SpeakerRow) :
    (identify_speaker cosine (Except.ok q) speakers).probabilities = []
    ∨ (identify_speaker cosine (Except.ok q) speakers).probabilities
      = (scoreScan cosine q speakers).scores := by
  by_cases hempt : speakers.isEmpty
  · left
    simp [identify_speaker, hempt]
  · cases hb : (scoreScan cosine q speakers).best with
    | none => left; simp [identify_speaker, hempt, hb]
    | some p =>
        rcases p with ⟨bn, bs⟩
        by_cases hlt : bs < 7/10
        · right; simp [identify_speaker, hempt, hb, hlt]
        · right; simp [identify_speaker, hempt, hb, hlt]

/-- A tracked best score is always the cosine distance of one of the
shape-matching rows. -/
theorem scoreScan_best_mem (cosine : Fingerprint → Fingerprint → ℚ)
    (q : Fingerprint) (speakers : List SpeakerRow) (bn : String) (bs : ℚ)
    (h : (scoreScan cosine q speakers).best = some (bn, bs)) :
    ∃ r, r ∈ speakers ∧ r.emb.length = q.length ∧ bs = cosine q r.emb := by
  have hbestf : (scoreScan cosine q speakers).best
      = List.foldl bestStep none (matchedPairs cosine q speakers) := by
    unfold scoreScan
    rw [foldl_scoreStep_best]
  by_cases hnep : matchedPairs cosine q speakers = []
  · rw [hbestf, hnep] at h
    cases h
  · obtain ⟨i, hi, hres, _, _⟩ := bestFold_none_first _ hnep
    rw [hbestf, hres] at h
    have hmem : ((matchedPairs cosine q speakers).get ⟨i, hi⟩)
        ∈ matchedPairs cosine q speakers := List.get_mem _ _ _
    rw [Option.some_inj.mp h] at hmem
    unfold matchedPairs at hmem
    rcases List.mem_map.mp hmem with ⟨r, hr, hre⟩
    have hrf := List.mem_filter.mp hr
    refine ⟨r, hrf.1, by simpa using hrf.2, ?_⟩
    have : cosine q r.emb = (bn, bs).2 := congrArg Prod.snd hre
    exact this.symm

/-- C2: the matcher returns verdict error with an empty score map exactly
when the enrolled list is empty (message `"No registered speakers
found."`, the message the spec renders as "no registered identities") or
when every enrolled identity is excluded by the shape filter (message
`"Could not compare voice with registered users."`); a shape-mismatched
identity is skipped entirely, never appearing in the score map and never
making the (total) comparison crash. -/
theorem c2_error_exactly_two_cases (cosine : Fingerprint → Fingerprint → ℚ)
    (q : Fingerprint) (speakers : List SpeakerRow)
    (hnd : (speakers.map SpeakerRow.name).Nodup) :
    (speakers = [] →
        identify_speaker cosine (Except.ok q) speakers
          = ⟨Status.error, "No registered speakers found.", none, none, []⟩)
    ∧ (speakers ≠ [] → (∀ r ∈ speakers, r.emb.length ≠ q.length) →
        identify_speaker cosine (Except.ok q) speakers
          = ⟨Status.error, "Could not compare voice with registered users.",
              none, none, []⟩)
    ∧ ((∃ r ∈ speakers, r.emb.length = q.length) →
        (identify_speaker cosine (Except.ok q) speakers).status ≠ Status.error)
    ∧ (∀ r ∈ speakers, r.emb.length ≠ q.length →
        r.name ∉ (identify_speaker cosine (Except.ok q) speakers).probabilities.map
          Prod.fst) := by
  refine ⟨?_, ?_, ?_, ?_⟩
  · intro h
    subst h
    rfl
  · intro hne hmis
    have hempf : speakers.isEmpty = false := by
      cases speakers with
      | nil => exact absurd rfl hne
      | cons a l => rfl
    have hnil : matchedPairs cosine q speakers = [] := by
      unfold matchedPairs
      rw [List.filter_eq_nil_iff.mpr]
      · rfl
      · intro r hr
        simpa using hmis r hr
    have hbest : (scoreScan cosine q speakers).best = none := by
      unfold scoreScan
      rw [foldl_scoreStep_best, hnil]
      rfl
    simp [identify_speaker, hempf, hbest]
  · rintro ⟨r, hr, hrlen⟩
    have hne : speakers ≠ [] := by
      intro h
      subst h
      cases hr
    have hempf : speakers.isEmpty = false := by
      cases speakers with
      | nil => exact absurd rfl hne
      | cons a l => rfl
    have hmem : (r.name, cosine q r.emb) ∈ matchedPairs cosine q speakers := by
      unfold matchedPairs
      exact List.mem_map.mpr ⟨r, List.mem_filter.mpr ⟨hr, by simpa using hrlen⟩, rfl⟩
    have hnep : matchedPairs cosine q speakers ≠ [] := by
      intro hc
      rw [hc] at hmem
      cases hmem
    obtain ⟨i, hi, hres, _, _⟩ := bestFold_none_first _ hnep
    have hbest : (scoreScan cosine q speakers).best
        = some ((matchedPairs cosine q speakers).get ⟨i, hi⟩) := by
      unfold scoreScan
      rw [foldl_scoreStep_best]
      exact hres
    rcases hp : (matchedPairs cosine q speakers).get ⟨i, hi⟩ with ⟨bn, bs⟩
    rw [hp] at hbest
    by_cases hlt : bs < 7/10
    · simp [identify_speaker, hempf, hbest, hlt]
    · simp [identify_speaker, hempf, hbest, hlt]
  · intro r hr hrlen hmem
    rcases identify_probabilities_cases cosine q speakers with hprob | hprob
    · rw [hprob] at hmem
      cases hmem
    · rw [hprob, scoreScan_scores_spec cosine q speakers hnd] at hmem
      rcases List.mem_map.mp hmem with ⟨p, hp, hpe⟩
      rcases List.mem_map.mp hp with ⟨x, hx, hxe⟩
      have hxf := List.mem_filter.mp hx
      have hxname : x.name = r.name := by
        rw [← hxe] at hpe
        simpa using hpe
      have hxr : x = r := List.inj_on_of_nodup_map hnd hxf.1 hr hxname
      have hxl : x.emb.length = q.length := by simpa using hxf.2
      rw [hxr] at hxl
      exact hrlen hxl

/-- C4 (amended): every score-map entry is `(1 - cosineDistance) * 100`
for its shape-matching row; the top-level confidence equals
`(1 - bestDistance) * 100`; and when every cosine distance lies in the
mathematical range `[0, 2]` of the cosine distance, every recorded
percentage and the confidence lie in `[-100, 100]` (not `[0, 100]`: an
opposite-sign pair has distance `2` and percentage `-100`). -/
theorem c4_scores_and_confidence (cosine : Fingerprint → Fingerprint → ℚ)
    (q : Fingerprint) (speakers : List SpeakerRow)
    (hrange : ∀ r ∈ speakers, 0 ≤ cosine q r.emb ∧ cosine q r.emb ≤ 2) :
    (∀ p ∈ (identify_speaker cosine (Except.ok q) speakers).probabilities,
        (∃ r, r ∈ speakers ∧ r.emb.length = q.length
          ∧ p = (r.name, (1 - cosine q r.emb) * 100))
        ∧ -100 ≤ p.2 ∧ p.2 ≤ 100)
    ∧ (identify_speaker cosine (Except.ok q) speakers).confidence
        = ((scoreScan cosine q speakers).best).map (fun b => (1 - b.2) * 100)
    ∧ ∀ c0 ∈ (identify_speaker cosine (Except.ok q) speakers).confidence,
        -100 ≤ c0 ∧ c0 ≤ 100 := by
  refine ⟨?_, identify_confidence_eq cosine q speakers, ?_⟩
  · intro p hp
    have hpmem : ∃ r, r ∈ speakers ∧ r.emb.length = q.length
        ∧ p = (r.name, (1 - cosine q r.emb) * 100) := by
      rcases identify_probabilities_cases cosine q speakers with hprob | hprob
      · rw [hprob] at hp
        cases hp
      · rw [hprob] at hp
        rcases foldl_scoreStep_scores_mem cosine q speakers ⟨none, []⟩ p hp with
          hmem | hmem
        · cases hmem
        · exact hmem
    refine ⟨hpmem, ?_, ?_⟩
    · rcases hpmem with ⟨r, hr, _, hpe⟩
      have hd := hrange r hr
      have hv : p.2 = (1 - cosine q r.emb) * 100 := by rw [hpe]
      rw [hv]
      nlinarith [hd.1, hd.2]
    · rcases hpmem with ⟨r, hr, _, hpe⟩
      have hd := hrange r hr
      have hv : p.2 = (1 - cosine q r.emb) * 100 := by rw [hpe]
      rw [hv]
      nlinarith [hd.1, hd.2]
  · intro c0 hc0
    rw [identify_confidence_eq cosine q speakers] at hc0
    cases hb : (scoreScan cosine q speakers).best with
    | none =>
        rw [hb] at hc0
        cases hc0
    | some b =>
        rcases b with ⟨bn, bs⟩
        rw [hb] at hc0
        have hc0e : c0 = (1 - bs) * 100 := by
          have := Option.mem_def.mp hc0
          simpa using this.symm
        obtain ⟨r, hr, _, hbse⟩ := scoreScan_best_mem cosine q speakers bn bs hb
        have hd := hrange r hr
        rw [← hbse] at hd
        constructor
        · rw [hc0e]
          nlinarith [hd.1, hd.2]
        · rw [hc0e]
          nlinarith [hd.1, hd.2]

/-- C4 (counterexample to the `[0, 100]` range): the cosine distance of the
one-dimensional query `[1]` to the stored fingerprint `[-1]` is exactly
`2`, and running the engine with that distance value records the
percentage `-100`, which is not in `[0, 100]`. -/
theorem c4_negative_confidence_counterexample :
    cosineDist [(1 : ℚ)] [(-1 : ℚ)] = 2
    ∧ (identify_speaker (fun _ _ => (2 : ℚ)) (Except.ok [1])
        [⟨"bob", [-1]⟩]).probabilities = [("bob", -100)]
    ∧ (identify_speaker (fun _ _ => (2 : ℚ)) (Except.ok [1])
        [⟨"bob", [-1]⟩]).confidence = some (-100)
    ∧ ¬ (0 : ℚ) ≤ -100 := by
  refine ⟨?_, ?_, ?_, by norm_num⟩
  · unfold cosineDist dotQ
    norm_num
  · norm_num [identify_speaker, scoreScan, scoreStep, dictInsert]
  · norm_num [identify_speaker, scoreScan, scoreStep, dictInsert]

/-- C5 (amended): identification never raises: a failure message `e` from
extraction surfaces as the error dictionary carrying
`"Error during identification: " ++ e`, with an empty score map.
Enrollment does not satisfy the same property: `register_speaker` catches
a failure only to re-raise it wrapped as
`"Error in register_speaker: " ++ e`, so its caller receives an exception
(the `/register` route, outside the service, converts it to a structured
response). -/
theorem c5_identification_catches_enrollment_raises :
    (∀ (cosine : Fingerprint → Fingerprint → ℚ) (e : String)
        (speakers : List SpeakerRow),
        identify_speaker cosine (Except.error e) speakers
          = ⟨Status.error, "Error during identification: " ++ e, none, none, []⟩)
    ∧ ∀ (name e : String) (db : List SpeakerRow),
        register_speaker name (Except.error e) db
          = Except.error ("Error in register_speaker: " ++ e) :=
  ⟨fun _ _ _ => rfl, fun _ _ _ => rfl⟩

/-- C5 (counterexample): a concrete extraction failure during enrollment
escapes `register_speaker` as a raised exception (modelled `Except.error`),
so callers of this public operation do not always receive a structured
result. -/
theorem c5_enrollment_raises_counterexample :
    register_speaker ("alice") (Except.error ("boom")) []
      = Except.error ("Error in register_speaker: boom") := rfl

/-- C6: when fingerprint extraction yields `None` or a zero-length vector,
enrollment returns the failure message
`"Failed to extract voice features for {name}. Please try again."`
(the message the spec renders in lowercase) and leaves the store exactly
as it was. -/
theorem c6_degenerate_extraction_no_write :
    ∀ (name : String) (db : List SpeakerRow),
      register_speaker name (Except.ok none) db
        = Except.ok (db, "Failed to extract voice features for " ++ name ++
            ". Please try again.")
      ∧ register_speaker name (Except.ok (some [])) db
        = Except.ok (db, "Failed to extract voice features for " ++ name ++
            ". Please try again.") :=
  fun _ _ => ⟨rfl, rfl⟩

theorem insertOrReplace_filter_self (db : List SpeakerRow) (name : String)
    (emb : Fingerprint) :
    (insertOrReplace db name emb).filter (fun r => r.name = name)
      = [⟨name, emb⟩] := by
  unfold insertOrReplace
  rw [List.filter_append]
  have h1 : (db.filter (fun r => decide (r.name ≠ name))).filter
      (fun r => r.name = name) = [] := by
    rw [List.filter_eq_nil_iff.mpr]
    intro r hr
    have := (List.mem_filter.mp hr).2
    simpa using this
  rw [h1]
  simp

theorem insertOrReplace_filter_le (db : List SpeakerRow) (name : String)
    (emb : Fingerprint) (n : String)
    (hdb : (db.filter (fun r => r.name = n)).length ≤ 1) :
    ((insertOrReplace db name emb).filter (fun r => r.name = n)).length ≤ 1 := by
  by_cases heq : n = name
  · subst heq
    rw [insertOrReplace_filter_self]
    simp
  · unfold insertOrReplace
    rw [List.filter_append]
    have h2 : (([⟨name, emb⟩] : List SpeakerRow).filter
        (fun r => r.name = n)) = [] := by
      simp [Ne.symm heq]
    rw [h2, List.append_nil]
    have hsub : List.Sublist
        ((db.filter (fun r => decide (r.name ≠ name))).filter
          (fun r => decide (r.name = n)))
        (db.filter (fun r => decide (r.name = n))) :=
      List.Sublist.filter _ (List.filter_sublist db)
    exact le_trans hsub.length_le hdb

/-- C7: enrollment with a non-degenerate fingerprint upserts: the store
afterwards holds exactly one row for that name, carrying the new
fingerprint; the at-most-one-row-per-name invariant is preserved for every
name, and re-enrolling the same name again leaves exactly one row holding
the latest fingerprint. -/
theorem c7_upsert_replaces (name : String) (emb emb2 : Fingerprint)
    (db : List SpeakerRow) (h : emb ≠ []) :
    register_speaker name (Except.ok (some emb)) db
      = Except.ok (insertOrReplace db name emb,
          "Speaker \x27" ++ name ++ "\x27 registered successfully.")
    ∧ (insertOrReplace db name emb).filter (fun r => r.name = name)
        = [⟨name, emb⟩]
    ∧ (∀ n : String, (db.filter (fun r => r.name = n)).length ≤ 1 →
        ((insertOrReplace db name emb).filter (fun r => r.name = n)).length ≤ 1)
    ∧ (insertOrReplace (insertOrReplace db name emb) name emb2).filter
        (fun r => r.name = name) = [⟨name, emb2⟩] := by
  refine ⟨?_, insertOrReplace_filter_self db name emb,
    fun n hn => insertOrReplace_filter_le db name emb n hn,
    insertOrReplace_filter_self _ name emb2⟩
  have hlen : ¬ emb.length = 0 := by
    simpa [List.length_eq_zero] using h
  simp [register_speaker, hlen]

/-- C10: `extract_embedding` is called by both `identify_speaker` (line 61)
and `register_speaker` (line 44) but is defined nowhere in the file, so on
every request the call raises a `NameError`; `identify_speaker` catches it
and returns the error dictionary with an empty score map, while
`register_speaker` re-raises it, so no enrollment ever persists — and
since the only path into the conditioning stage would go through
`extract_embedding`, `remove_noise` is never invoked (no other line of the
file calls it). -/
theorem c10_undefined_extract_embedding
    (cosine : Fingerprint → Fingerprint → ℚ) (speakers : List SpeakerRow)
    (name : String) (db : List SpeakerRow) :
    identify_speaker cosine (Except.error nameErrorMsg) speakers
      = ⟨Status.error, "Error during identification: " ++ nameErrorMsg,
          none, none, []⟩
    ∧ register_speaker name extract_embedding_asGiven db
      = Except.error ("Error in register_speaker: " ++ nameErrorMsg) :=
  ⟨rfl, rfl⟩

theorem fit_length_length (L : Nat) (xs : List ℚ) :
    (fit_length L xs).length = L := by
  unfold fit_length
  by_cases h : xs.length ≥ L
  · rw [if_pos h]
    rw [List.length_take]
    omega
  · rw [if_neg h]
    rw [List.length_append, List.length_replicate]
    omega

/-- C8: for any input waveform, any sample rate, and any high-pass filter
oracle that preserves length (as scipy `filtfilt` does), `remove_noise`
returns a waveform of exactly the input length: the noise gate is a
pointwise map, and the spectral-subtraction branch ends with the
truncate-or-zero-pad length correction. -/
theorem c8_conditioning_preserves_length (o : StftOracle)
    (filt : List ℚ → List ℚ) (audio : List ℚ) (sr : ℚ)
    (hfilt : (filt audio).length = audio.length) :
    (remove_noise o filt audio sr).length = audio.length := by
  simp only [remove_noise]
  by_cases hc : (audio.length : ℚ) > sr * (1/2)
  · rw [if_pos hc]
    exact fit_length_length _ _
  · rw [if_neg hc]
    unfold noise_gate
    rw [List.length_map]
    exact hfilt

/-- C9: spectral subtraction runs exactly when the duration exceeds half a
second (`len(audio) > sr * 0.5`, equivalently `len(audio)/sr > 0.5` for a
positive rate); when skipped the noise-gated signal is returned unchanged;
when it runs, the output is the length-corrected inverse STFT (with the
gated signal as phase source) of the per-bin floored subtraction, whose
every entry is `max(spec[i][j] - 0.7 * noise[i], 0.01 * spec[i][j])` — the
per-bin noise estimate, taken from the first `int(sr * 0.5)` samples of the
original pre-gate waveform, broadcast across the time frames `j`. -/
theorem c9_spectral_subtraction_stage (o : StftOracle)
    (filt : List ℚ → List ℚ) (audio : List ℚ) (sr : ℚ) (hsr : 0 < sr) :
    ((audio.length : ℚ) / sr > 1/2 ↔ (audio.length : ℚ) > sr * (1/2))
    ∧ (¬ (audio.length : ℚ) > sr * (1/2) →
        remove_noise o filt audio sr = noise_gate (filt audio))
    ∧ ((audio.length : ℚ) > sr * (1/2) →
        remove_noise o filt audio sr
          = fit_length audio.length
              (o.istftWithPhase
                (spec_subtract (o.pow (noise_gate (filt audio)))
                  ((o.pow (audio.take (sr * (1/2)).floor.toNat)).map meanRow))
                (noise_gate (filt audio))))
    ∧ ∀ (spec : List (List ℚ)) (noise : List ℚ) (i j : ℕ)
        (hi1 : i < spec.length) (hi2 : i < noise.length)
        (hj : j < (spec.get ⟨i, hi1⟩).length),
        ∃ hi3 : i < (spec_subtract spec noise).length,
        ∃ hj3 : j < ((spec_subtract spec noise).get ⟨i, hi3⟩).length,
        ((spec_subtract spec noise).get ⟨i, hi3⟩).get ⟨j, hj3⟩
          = max ((spec.get ⟨i, hi1⟩).get ⟨j, hj⟩ - 7/10 * noise.get ⟨i, hi2⟩)
              (1/100 * (spec.get ⟨i, hi1⟩).get ⟨j, hj⟩) := by
  refine ⟨?_, ?_, ?_, ?_⟩
  · constructor
    · intro h
      have := (lt_div_iff₀ hsr).mp h
      rw [gt_iff_lt]
      linarith
    · intro h
      rw [gt_iff_lt, lt_div_iff₀ hsr]
      linarith
  · intro h
    simp only [remove_noise]
    rw [if_neg h]
  · intro h
    simp only [remove_noise]
    rw [if_pos h]
  · intro spec noise i j hi1 hi2 hj
    have hlen : (spec_subtract spec noise).length
        = min spec.length noise.length := by
      unfold spec_subtract
      rw [List.length_zipWith]
    have hi3 : i < (spec_subtract spec noise).length := by
      rw [hlen]
      omega
    have hrow : (spec_subtract spec noise).get ⟨i, hi3⟩
        = (spec.get ⟨i, hi1⟩).map
            (fun p => max (p - 7/10 * noise.get ⟨i, hi2⟩) (1/100 * p)) := by
      unfold spec_subtract
      simp [List.get_eq_getElem, List.getElem_zipWith]
    have hj3 : j < ((spec_subtract spec noise).get ⟨i, hi3⟩).length := by
      rw [hrow, List.length_map]
      exact hj
    refine ⟨hi3, hj3, ?_⟩
    simp only [List.get_eq_getElem]
    simp [spec_subtract, List.getElem_zipWith, List.getElem_map]

/-- Concrete run of the C1 theorem on `wSpeakers` (distances `1/2` and `1`
to the query `[0]`). -/
theorem c1_threshold_decision_witness :
    ∃ bn bs, (scoreScan cosHead [0] wSpeakers).best = some (bn, bs)
      ∧ bs ∈ wSpeakers.map (fun r => cosHead [0] r.emb)
      ∧ (∀ d ∈ wSpeakers.map (fun r => cosHead [0] r.emb), bs ≤ d)
      ∧ (bs < 7/10 →
          identify_speaker cosHead (Except.ok [0]) wSpeakers
            = ⟨Status.granted, "Welcome " ++ bn, some bn, some ((1 - bs) * 100),
                wSpeakers.map (fun r => (r.name, (1 - cosHead [0] r.emb) * 100))⟩)
      ∧ (7/10 ≤ bs →
          identify_speaker cosHead (Except.ok [0]) wSpeakers
            = ⟨Status.denied, "ACCESS DENIED", none, some ((1 - bs) * 100),
                wSpeakers.map (fun r => (r.name, (1 - cosHead [0] r.emb) * 100))⟩) :=
  c1_threshold_decision cosHead [0] wSpeakers (by decide) (by decide) (by decide)

/-- Concrete run of the C2 theorem on the all-mismatched store
`wMismatch`. -/
theorem c2_error_exactly_two_cases_witness :
    (wMismatch = [] →
        identify_speaker cosHead (Except.ok [0]) wMismatch
          = ⟨Status.error, "No registered speakers found.", none, none, []⟩)
    ∧ (wMismatch ≠ [] → (∀ r ∈ wMismatch, r.emb.length ≠ ([0] : Fingerprint).length) →
        identify_speaker cosHead (Except.ok [0]) wMismatch
          = ⟨Status.error, "Could not compare voice with registered users.",
              none, none, []⟩)
    ∧ ((∃ r ∈ wMismatch, r.emb.length = ([0] : Fingerprint).length) →
        (identify_speaker cosHead (Except.ok [0]) wMismatch).status ≠ Status.error)
    ∧ (∀ r ∈ wMismatch, r.emb.length ≠ ([0] : Fingerprint).length →
        r.name ∉ (identify_speaker cosHead (Except.ok [0]) wMismatch).probabilities.map
          Prod.fst) :=
  c2_error_exactly_two_cases cosHead [0] wMismatch (by decide)

/-- Concrete run of the C3 theorem on the exact tie `wTie`: the
characterisation forces the first row to win. -/
theorem c3_first_minimum_wins_witness :
    ∃ i, ∃ hi : i < wTie.length,
      (scoreScan cosHead [0] wTie).best
        = some ((wTie.get ⟨i, hi⟩).name, cosHead [0] (wTie.get ⟨i, hi⟩).emb)
      ∧ (∀ j, ∀ hj : j < i,
          cosHead [0] (wTie.get ⟨i, hi⟩).emb
            < cosHead [0] (wTie.get ⟨j, Nat.lt_trans hj hi⟩).emb)
      ∧ ∀ r ∈ wTie, cosHead [0] (wTie.get ⟨i, hi⟩).emb ≤ cosHead [0] r.emb :=
  c3_first_minimum_wins cosHead [0] wTie (by decide) (by decide)

/-- Concrete run of the amended C4 theorem on `wSpeakers`, whose distances
`1/2` and `1` lie inside `[0, 2]`. -/
theorem c4_scores_and_confidence_witness :
    (∀ p ∈ (identify_speaker cosHead (Except.ok [0]) wSpeakers).probabilities,
        (∃ r, r ∈ wSpeakers ∧ r.emb.length = ([0] : Fingerprint).length
          ∧ p = (r.name, (1 - cosHead [0] r.emb) * 100))
        ∧ -100 ≤ p.2 ∧ p.2 ≤ 100)
    ∧ (identify_speaker cosHead (Except.ok [0]) wSpeakers).confidence
        = ((scoreScan cosHead [0] wSpeakers).best).map (fun b => (1 - b.2) * 100)
    ∧ ∀ c0 ∈ (identify_speaker cosHead (Except.ok [0]) wSpeakers).confidence,
        -100 ≤ c0 ∧ c0 ≤ 100 :=
  c4_scores_and_confidence cosHead [0] wSpeakers (by
    intro r hr
    simp only [wSpeakers, List.mem_cons, List.not_mem_nil, or_false] at hr
    rcases hr with h | h <;> subst h <;> constructor <;> norm_num [cosHead])

/-- Concrete run of the C7 theorem: re-enrolling the already-present name
`"alice"` into `wDb`. -/
theorem c7_upsert_replaces_witness :
    register_speaker ("alice") (Except.ok (some [1])) wDb
      = Except.ok (insertOrReplace wDb ("alice") [1],
          "Speaker \x27" ++ "alice" ++ "\x27 registered successfully.")
    ∧ (insertOrReplace wDb ("alice") [1]).filter (fun r => r.name = "alice")
        = [⟨"alice", [1]⟩]
    ∧ (∀ n : String, (wDb.filter (fun r => r.name = n)).length ≤ 1 →
        ((insertOrReplace wDb ("alice") [1]).filter (fun r => r.name = n)).length ≤ 1)
    ∧ (insertOrReplace (insertOrReplace wDb ("alice") [1]) "alice" [2]).filter
        (fun r => r.name = "alice") = [⟨"alice", [2]⟩] :=
  c7_upsert_replaces ("alice") [1] [2] wDb (by decide)

/-- Concrete run of the C8 theorem: the identity filter on a one-sample
waveform at rate `1` (which takes the spectral-subtraction branch). -/
theorem c8_conditioning_preserves_length_witness :
    (remove_noise wOracle id [(1 : ℚ)] 1).length = [(1 : ℚ)].length :=
  c8_conditioning_preserves_length wOracle id [(1 : ℚ)] 1 rfl

/-- Concrete run of the C9 theorem on a one-sample waveform at rate `1`. -/
theorem c9_spectral_subtraction_stage_witness :
    ((([(1 : ℚ)].length : ℚ) / 1 > 1/2 ↔ (([(1 : ℚ)].length : ℚ)) > 1 * (1/2))
    ∧ (¬ (([(1 : ℚ)].length : ℚ)) > 1 * (1/2) →
        remove_noise wOracle id [(1 : ℚ)] 1 = noise_gate (id [(1 : ℚ)]))
    ∧ ((([(1 : ℚ)].length : ℚ)) > 1 * (1/2) →
        remove_noise wOracle id [(1 : ℚ)] 1
          = fit_length [(1 : ℚ)].length
              (wOracle.istftWithPhase
                (spec_subtract (wOracle.pow (noise_gate (id [(1 : ℚ)])))
                  ((wOracle.pow ([(1 : ℚ)].take ((1 : ℚ) * (1/2)).floor.toNat)).map
                    meanRow))
                (noise_gate (id [(1 : ℚ)]))))
    ∧ ∀ (spec : List (List ℚ)) (noise : List ℚ) (i j : ℕ)
        (hi1 : i < spec.length) (hi2 : i < noise.length)
        (hj : j < (spec.get ⟨i, hi1⟩).length),
        ∃ hi3 : i < (spec_subtract spec noise).length,
        ∃ hj3 : j < ((spec_subtract spec noise).get ⟨i, hi3⟩).length,
        ((spec_subtract spec noise).get ⟨i, hi3⟩).get ⟨j, hj3⟩
          = max ((spec.get ⟨i, hi1⟩).get ⟨j, hj⟩ - 7/10 * noise.get ⟨i, hi2⟩)
              (1/100 * (spec.get ⟨i, hi1⟩).get ⟨j, hj⟩)) :=
  c9_spectral_subtraction_stage wOracle id [(1 : ℚ)] 1 one_pos

end VoiceRecog
